import Mathlib

/-!
Verification of the ProText editor core (src/protext.py) against its
specification. We shallowly embed the `Buffer` class and the `Editor`
class's editing, navigation, search and replace operations as pure Lean
functions over an explicit state, and prove or refute the specification's
claims about them.

Strings are modelled as `List Char` (Python `str` values, one `Char` per
code point, which matches Python's per-code-point indexing). Machine-level
coordinates (`cy`, `cx`, `top`, `left`) are nonnegative in every reachable
state of the program, so they are modelled as `Nat`; wherever the source
subtracts, either a guard makes the subtraction exact or the source itself
clamps at zero (`max(0, ...)`), which is exactly `Nat` truncated
subtraction. The two spots where the source writes `a - b + c` under a
guard making the result nonnegative are transcribed as `a + c - b`, which
is equal there and stays exact for `Nat`.
-/

namespace ProText

/-- The `Buffer` class: document lines, optional filename, modified and
read-only flags. `lines` holds the document, one entry per line, newlines
stripped. -/
structure Buffer where
  filename : Option (List Char)
  lines : List (List Char)
  modified : Bool
  readonly : Bool
deriving DecidableEq

/-- The `Editor` class's mutable state: the buffer plus cursor position
(`cy`, `cx`) and viewport scroll offsets (`top`, `left`). The `stdscr`
handle, the transient status message `msg`, and the unused fields
`last_search`, `search_results`, `replace_confirm_all` are rendering/UI
bookkeeping with no effect on the claims and are not modelled. -/
structure EState where
  buf : Buffer
  cy : Nat
  cx : Nat
  top : Nat
  left : Nat
deriving DecidableEq

/-- `self.buf.lines[self.cy]` — the line the cursor is on (every operation
in the source indexes it only in states where `cy` is in range; out of
range we default to the empty line). -/
def EState.curLine (e : EState) : List Char :=
  e.buf.lines.getD e.cy []

/-- Python `list.insert(n, a)`: insert `a` so it lands at index `n`,
clamping to the end when `n` exceeds the length. -/
def listInsertAt (n : Nat) (a : α) (l : List α) : List α :=
  l.take n ++ a :: l.drop n

/-- The list left behind by Python `list.pop(n)` (the source only pops at
in-range indices). -/
def listRemoveAt (n : Nat) (l : List α) : List α :=
  l.take n ++ l.drop (n + 1)

/-! ### Viewport reclamation (`Editor.ensure_cursor_visible`) -/

/-- Vertical half of `ensure_cursor_visible`: the source's `text_h = h - 1`
is inlined; if the cursor row is above the window scroll up to it, if it
is at or below the bottom scroll so the cursor sits on the last text row.
The source's `self.cy - text_h + 1` is written `e.cy + 1 - (h - 1)`, equal
under the guard `e.cy ≥ e.top + (h - 1)`. -/
def clampTop (h : Nat) (e : EState) : EState :=
  if e.cy < e.top then { e with top := e.cy }
  else if e.cy ≥ e.top + (h - 1) then { e with top := e.cy + 1 - (h - 1) }
  else e

/-- Horizontal half of `ensure_cursor_visible`. The source's
`self.cx - w + 2` is written `e.cx + 2 - w`, equal under the guard
`e.cx ≥ e.left + w - 1`. -/
def clampLeft (w : Nat) (e : EState) : EState :=
  if e.cx < e.left then { e with left := e.cx }
  else if e.cx ≥ e.left + w - 1 then { e with left := e.cx + 2 - w }
  else e

/-- `Editor.ensure_cursor_visible` for a terminal of `h` rows and `w`
columns: the vertical clamp followed by the horizontal clamp. -/
def ensure_cursor_visible (h w : Nat) (e : EState) : EState :=
  clampLeft w (clampTop h e)

/-! ### Navigation (`Editor.move_left/right/up/down`, Home/End/Page keys) -/

/-- `Editor.move_left`. -/
def move_left (h w : Nat) (e : EState) : EState :=
  ensure_cursor_visible h w <|
    if e.cx > 0 then { e with cx := e.cx - 1 }
    else if e.cy > 0 then
      { e with cy := e.cy - 1, cx := (e.buf.lines.getD (e.cy - 1) []).length }
    else e

/-- `Editor.move_right`. -/
def move_right (h w : Nat) (e : EState) : EState :=
  ensure_cursor_visible h w <|
    if e.cx < e.curLine.length then { e with cx := e.cx + 1 }
    else if e.cy < e.buf.lines.length - 1 then { e with cy := e.cy + 1, cx := 0 }
    else e

/-- `Editor.move_up`: decrement the row and clamp the column to the new
line's length. -/
def move_up (h w : Nat) (e : EState) : EState :=
  ensure_cursor_visible h w <|
    if e.cy > 0 then
      { e with cy := e.cy - 1, cx := min e.cx (e.buf.lines.getD (e.cy - 1) []).length }
    else e

/-- `Editor.move_down`. -/
def move_down (h w : Nat) (e : EState) : EState :=
  ensure_cursor_visible h w <|
    if e.cy < e.buf.lines.length - 1 then
      { e with cy := e.cy + 1, cx := min e.cx (e.buf.lines.getD (e.cy + 1) []).length }
    else e

/-- The `KEY_HOME` handler in `Editor.run`: `self.cx = 0` (no viewport
reclamation in the source). -/
def key_home (e : EState) : EState :=
  { e with cx := 0 }

/-- The `KEY_END` handler in `Editor.run`: `self.cx = len(self.buf.lines[self.cy])`. -/
def key_end (e : EState) : EState :=
  { e with cx := e.curLine.length }

/-- The `KEY_PPAGE` handler in `Editor.run`: `cy = max(0, cy - (h - 2))`
(`Nat` subtraction is exactly `max 0` of the integer difference), then
viewport reclamation. -/
def page_up (h w : Nat) (e : EState) : EState :=
  let delta := h - 2
  ensure_cursor_visible h w { e with cy := e.cy - delta }

/-- The `KEY_NPAGE` handler in `Editor.run`:
`cy = min(len(lines) - 1, cy + (h - 2))`, then viewport reclamation. -/
def page_down (h w : Nat) (e : EState) : EState :=
  let delta := h - 2
  ensure_cursor_visible h w
    { e with cy := min (e.buf.lines.length - 1) (e.cy + delta) }

/-! ### Editing (`Editor.insert_char/backspace/insert_newline/delete_char`) -/

/-- `Editor.insert_char`: splice `c` into the current line at the cursor
column (`line[:cx] + ch + line[cx:]`), advance the column, mark modified. -/
def insert_char (c : Char) (e : EState) : EState :=
  let line := e.curLine
  { e with
    buf := { e.buf with
              lines := e.buf.lines.set e.cy (line.take e.cx ++ c :: line.drop e.cx),
              modified := true },
    cx := e.cx + 1 }

/-- `Editor.backspace`: delete before the cursor, or merge with the
previous line when the column is 0 (then reclaim the viewport); a no-op at
the very start of the document. -/
def backspace (h w : Nat) (e : EState) : EState :=
  if e.cx > 0 then
    let line := e.curLine
    { e with
      buf := { e.buf with
                lines := e.buf.lines.set e.cy (line.take (e.cx - 1) ++ line.drop e.cx),
                modified := true },
      cx := e.cx - 1 }
  else if e.cy > 0 then
    let prev := e.buf.lines.getD (e.cy - 1) []
    let cur := e.curLine
    let popped := listRemoveAt e.cy e.buf.lines
    ensure_cursor_visible h w
      { e with
        buf := { e.buf with
                  lines := popped.set (e.cy - 1) (prev ++ cur),
                  modified := true },
        cy := e.cy - 1,
        cx := prev.length }
  else e

/-- `Editor.insert_newline`: split the current line at the cursor column,
move to the start of the new line, mark modified, reclaim the viewport. -/
def insert_newline (h w : Nat) (e : EState) : EState :=
  let line := e.curLine
  let lft := line.take e.cx
  let rgt := line.drop e.cx
  ensure_cursor_visible h w
    { e with
      buf := { e.buf with
                lines := listInsertAt (e.cy + 1) rgt (e.buf.lines.set e.cy lft),
                modified := true },
      cy := e.cy + 1,
      cx := 0 }

/-- `Editor.delete_char`: remove the character under the cursor, or merge
the next line in when at end of line; a no-op at the very end of the
document. -/
def delete_char (e : EState) : EState :=
  let line := e.curLine
  if e.cx < line.length then
    { e with
      buf := { e.buf with
                lines := e.buf.lines.set e.cy (line.take e.cx ++ line.drop (e.cx + 1)),
                modified := true } }
  else if e.cy < e.buf.lines.length - 1 then
    let nxt := e.buf.lines.getD (e.cy + 1) []
    { e with
      buf := { e.buf with
                lines := (listRemoveAt (e.cy + 1) e.buf.lines).set e.cy (line ++ nxt),
                modified := true } }
  else e

/-! ### Search (`Editor.find`) -/

/-- Does `term` occur in `s` starting exactly at index `i`
(Python `s[i:i+len(term)] == term`)? -/
def matchesAt (s term : List Char) (i : Nat) : Bool :=
  (s.drop i).take term.length == term

/-- Python `s.find(term, start)`: the least index `i ≥ start` (up to and
including `len s`, where only an empty `term` can match) at which `term`
occurs, or `none` (Python's `-1`). -/
def pyFindFrom (s term : List Char) (start : Nat) : Option Nat :=
  (List.range (s.length + 1)).find? fun i => decide (start ≤ i) && matchesAt s term i

/-- Python `term in s` (substring containment), as the source's
`if find_term in line` guard computes it. -/
def pyContains (term s : List Char) : Bool :=
  (pyFindFrom s term 0).isSome

/-- One of the two row loops of `Editor.find`: try the rows in order,
searching each row's line from the column `startCol` gives for that row,
and return the first `(row, matchCol)` hit. -/
def findInRows (lines : List (List Char)) (term : List Char)
    (rows : List Nat) (startCol : Nat → Nat) : Option (Nat × Nat) :=
  match rows with
  | [] => none
  | y :: rest =>
    match pyFindFrom (lines.getD y []) term (startCol y) with
    | some x => some (y, x)
    | none => findInRows lines term rest startCol

/-- `Editor.find`: scan rows `cy, cy+1, …` to the end of the document,
starting the substring search at `cx` on row `cy` and at 0 afterwards;
on failure wrap and scan rows `0, …, cy-1` from column 0. On a hit move
the cursor to the match and reclaim the viewport; on a miss return the
state untouched. Returns the source's boolean result alongside the new
state. -/
def find (h w : Nat) (term : List Char) (e : EState) : Bool × EState :=
  let fwd := findInRows e.buf.lines term
    (List.range' e.cy (e.buf.lines.length - e.cy))
    (fun y => if y = e.cy then e.cx else 0)
  match fwd with
  | some (y, x) => (true, ensure_cursor_visible h w { e with cy := y, cx := x })
  | none =>
    match findInRows e.buf.lines term (List.range e.cy) (fun _ => 0) with
    | some (y, x) => (true, ensure_cursor_visible h w { e with cy := y, cx := x })
    | none => (false, e)

/-! ### Replace-all (`Editor.replace_all`) -/

/-- Python `s.replace(f, r)` for a nonempty needle `f`: scan left to
right; at each position either `f` starts here (emit `r`, skip past the
match, never rescanning inside `r`) or it does not (keep the character).
The extra `fuel` argument only makes the recursion structural (each step
consumes at least one character, so any `fuel ≥ s.length` gives the same
result); `pyReplaceNE` below instantiates it. -/
def pyReplaceFuel (f r : List Char) : Nat → List Char → List Char
  | _, [] => []
  | 0, s => s
  | fuel + 1, c :: rest =>
    if (c :: rest).take f.length == f then
      r ++ pyReplaceFuel f r fuel (rest.drop (f.length - 1))
    else
      c :: pyReplaceFuel f r fuel rest

/-- Python `s.replace(f, r)` for a nonempty needle `f`. -/
def pyReplaceNE (f r s : List Char) : List Char :=
  pyReplaceFuel f r s.length s

/-- Python `s.replace("", r)`: `r` is inserted at every boundary,
`r ++ c₀ ++ r ++ c₁ ++ … ++ r`. -/
def pyReplaceEmpty (r : List Char) : List Char → List Char
  | [] => r
  | c :: rest => r ++ c :: pyReplaceEmpty r rest

/-- Python `s.replace(f, r)`. -/
def pyReplace (f r s : List Char) : List Char :=
  if f = [] then pyReplaceEmpty r s else pyReplaceNE f r s

/-- Python `s.count(f)` for a nonempty needle: number of non-overlapping
occurrences, counted leftmost-first. `fuel` as in `pyReplaceFuel`. -/
def pyCountFuel (f : List Char) : Nat → List Char → Nat
  | _, [] => 0
  | 0, _ => 0
  | fuel + 1, c :: rest =>
    if (c :: rest).take f.length == f then
      pyCountFuel f fuel (rest.drop (f.length - 1)) + 1
    else
      pyCountFuel f fuel rest

/-- Python `s.count(f)` for a nonempty needle. -/
def pyCountNE (f s : List Char) : Nat :=
  pyCountFuel f s.length s

/-- Python `s.count(f)` (`s.count("") = len s + 1`). -/
def pyCount (f s : List Char) : Nat :=
  if f = [] then s.length + 1 else pyCountNE f s

/-- `Editor.replace_all`: for each line containing the needle, replace all
occurrences and add that line's occurrence count to the total; if the
total is positive, mark the buffer modified. Returns the count with the
new state. The cursor is not touched. -/
def replace_all (f r : List Char) (e : EState) : Nat × EState :=
  let newLines := e.buf.lines.map fun line =>
    if pyContains f line then pyReplace f r line else line
  let count := (e.buf.lines.map fun line =>
    if pyContains f line then pyCount f line else 0).sum
  (count,
   { e with buf := { e.buf with
                      lines := newLines,
                      modified := if count > 0 then true else e.buf.modified } })

/-! ### Key dispatch for character input (the `isinstance(ch, str)` branch
of `Editor.run`) -/

/-- What the `Editor.run` dispatch does with a character input event,
transcribing the if/elif chain: Ctrl-Q quit, Ctrl-S save, `\x08`/`\x7f`
backspace, newline, Ctrl-C interrupt, plain `q`/`Q` quit, Ctrl-F find,
Ctrl-R replace; otherwise insert the character if its code point is at
least 32, else ignore it. -/
inductive StrKeyAction where
  | ctrlQ
  | ctrlS
  | backspaceKey
  | newlineKey
  | ctrlC
  | quitKey
  | ctrlF
  | ctrlR
  | insertChar (c : Char)
  | ignored
deriving DecidableEq

/-- The character-input dispatch of `Editor.run`, branch for branch. -/
def dispatchStrKey (ch : Char) : StrKeyAction :=
  if ch = '\x11' then .ctrlQ
  else if ch = '\x13' then .ctrlS
  else if ch = '\x08' ∨ ch = '\x7f' then .backspaceKey
  else if ch = '\n' then .newlineKey
  else if ch = '\x03' then .ctrlC
  else if ch = 'q' ∨ ch = 'Q' then .quitKey
  else if ch = '\x06' then .ctrlF
  else if ch = '\x12' then .ctrlR
  else if 32 ≤ ch.toNat then .insertChar ch
  else .ignored

/-! ### Saving and loading (`Buffer.save`, `Buffer.__init__`) -/

/-- The byte stream `Buffer.save` writes: every line followed by `"\n"`. -/
def serializeLines (ls : List (List Char)) : List Char :=
  match ls with
  | [] => []
  | l :: rest => l ++ '\n' :: serializeLines rest

/-- Python truthiness of `self.filename` (`if not self.filename`): set and
nonempty. -/
def Buffer.filenameSet (b : Buffer) : Bool :=
  match b.filename with
  | none => false
  | some f => !f.isEmpty

/-- Outcome of `Buffer.save`, as the source's `(ok, message)` pair with
the content that reached the disk (`none` when nothing was written to
completion). The write itself can fail; `io = some msg` models the raised
exception's message `str(e)`, `io = none` a successful write. -/
def Buffer.save (io : Option (List Char)) (b : Buffer) :
    Buffer × (Bool × List Char) × Option (List Char) :=
  if !b.filenameSet then (b, (false, "No filename".data), none)
  else if b.readonly then (b, (false, "File is read-only".data), none)
  else
    match io with
    | some msg => (b, (false, msg), none)
    | none => ({ b with modified := false }, (true, "Saved".data), some (serializeLines b.lines))

/-- Python text-file line iteration: split the stream into chunks, each
ending with the `'\n'` that terminates it; a final chunk without a
newline is yielded too (if nonempty). -/
def splitKeepAux (acc : List Char) : List Char → List (List Char)
  | [] => if acc = [] then [] else [acc.reverse]
  | c :: rest =>
    if c = '\n' then (acc.reverse ++ ['\n']) :: splitKeepAux [] rest
    else splitKeepAux (c :: acc) rest

/-- The list of lines Python file iteration yields for a text stream. -/
def splitKeep (s : List Char) : List (List Char) :=
  splitKeepAux [] s

/-- Python `line.rstrip('\n')`: drop every trailing newline character. -/
def rstripNL (s : List Char) : List Char :=
  (s.reverse.dropWhile (fun c => c = '\n')).reverse

/-- The `lines` field `Buffer.__init__` computes from an existing file's
content: each yielded line with its trailing newlines stripped, and the
`[""]` fallback when that leaves no lines at all. -/
def loadLines (content : List Char) : List (List Char) :=
  let ls := (splitKeep content).map rstripNL
  if ls.isEmpty then [[]] else ls

/-- `Buffer.__init__`: with a filename whose file exists (its content and
writability given), load the lines from the content and derive `readonly`
from writability; otherwise start with one empty line. `modified` starts
false either way. -/
def Buffer.load (filename : Option (List Char)) (content : Option (List Char))
    (writable : Bool) : Buffer :=
  match filename, content with
  | some f, some c =>
    { filename := some f, lines := loadLines c, modified := false, readonly := !writable }
  | f, _ =>
    { filename := f, lines := [[]], modified := false, readonly := false }

/-! ## Concrete states and the cursor invariant -/

/-- A fresh editor state over the given document lines with the cursor at
`(cy, cx)`: filename absent, nothing modified, viewport at the origin. -/
def mkE (ls : List (List Char)) (cy cx : Nat) : EState :=
  { buf := { filename := none, lines := ls, modified := false, readonly := false },
    cy := cy, cx := cx, top := 0, left := 0 }

/-- The specification's cursor bounds invariant:
`0 ≤ cursorRow < len(lines)` and `0 ≤ cursorCol ≤ len(lines[cursorRow])`
(the lower bounds are inherent in `Nat`). -/
abbrev cursorInv (e : EState) : Prop :=
  e.cy < e.buf.lines.length ∧ e.cx ≤ e.curLine.length

/-! ## Theorems for the claims -/

/-- Claim C1: the claim states that every editing, navigation, search and
replace operation preserves the cursor bounds invariant, in particular
that after `replace_all` shrinks the cursor's line the column still does
not exceed the new length. The code violates this: `replace_all` never
touches the cursor, so on the document `["aaa"]` with the cursor at
column 3, `replace_all("aa", "b")` turns the line into `"ba"` (length 2)
and leaves the column at 3; likewise the PageUp handler clamps the row but
not the column, so from `(1, 3)` on `["a", "bbb"]` it lands on row 0 with
column 3 > 1. This theorem evaluates the code at both failing inputs. -/
theorem c1_cursor_invariant_violated :
    cursorInv (mkE ["aaa".data] 0 3) ∧
    ¬ cursorInv (replace_all "aa".data "b".data (mkE ["aaa".data] 0 3)).2 ∧
    (replace_all "aa".data "b".data (mkE ["aaa".data] 0 3)).2.buf.lines
      = ["ba".data] ∧
    (replace_all "aa".data "b".data (mkE ["aaa".data] 0 3)).2.cx = 3 ∧
    cursorInv (mkE ["a".data, "bbb".data] 1 3) ∧
    ¬ cursorInv (page_up 24 80 (mkE ["a".data, "bbb".data] 1 3)) := by
  decide

/-- The vertical clamp leaves everything but `top` alone and brackets the
cursor row in the visible rows. -/
theorem clampTop_spec (h : Nat) (e : EState) (hh : 2 ≤ h) :
    (clampTop h e).buf = e.buf ∧ (clampTop h e).cy = e.cy ∧
    (clampTop h e).cx = e.cx ∧ (clampTop h e).left = e.left ∧
    (clampTop h e).top ≤ e.cy ∧ e.cy ≤ (clampTop h e).top + (h - 2) := by
  unfold clampTop
  split_ifs <;> refine ⟨rfl, rfl, rfl, rfl, ?_, ?_⟩ <;> (try dsimp only) <;> omega

/-- The horizontal clamp leaves everything but `left` alone and brackets
the cursor column in the visible columns. -/
theorem clampLeft_spec (w : Nat) (e : EState) (hw : 2 ≤ w) :
    (clampLeft w e).buf = e.buf ∧ (clampLeft w e).cy = e.cy ∧
    (clampLeft w e).cx = e.cx ∧ (clampLeft w e).top = e.top ∧
    (clampLeft w e).left ≤ e.cx ∧ e.cx ≤ (clampLeft w e).left + (w - 2) := by
  unfold clampLeft
  split_ifs <;> refine ⟨rfl, rfl, rfl, rfl, ?_, ?_⟩ <;> (try dsimp only) <;> omega

/-- Claim C4: viewport reclamation (`ensure_cursor_visible`) leaves the
cursor untouched and places it inside the visible rectangle: for terminal
height `h ≥ 2` and width `w ≥ 2`, afterwards
`top ≤ cy ≤ top + h - 2` and `left ≤ cx ≤ left + w - 2`. Since it acts on
an arbitrary state, this holds after any cursor-affecting operation that
is followed by it. -/
theorem c4_ensure_cursor_visible_bounds (h w : Nat) (e : EState)
    (hh : 2 ≤ h) (hw : 2 ≤ w) :
    (ensure_cursor_visible h w e).cy = e.cy ∧
    (ensure_cursor_visible h w e).cx = e.cx ∧
    (ensure_cursor_visible h w e).top ≤ e.cy ∧
    e.cy ≤ (ensure_cursor_visible h w e).top + (h - 2) ∧
    (ensure_cursor_visible h w e).left ≤ e.cx ∧
    e.cx ≤ (ensure_cursor_visible h w e).left + (w - 2) := by
  obtain ⟨t1, t2, t3, t4, t5, t6⟩ := clampTop_spec h e hh
  obtain ⟨l1, l2, l3, l4, l5, l6⟩ := clampLeft_spec w (clampTop h e) hw
  unfold ensure_cursor_visible
  refine ⟨by rw [l2, t2], by rw [l3, t3], ?_, ?_, ?_, ?_⟩
  · rw [l4]; exact t5
  · rw [l4]; exact t6
  · rw [t3] at l5; exact l5
  · rw [t3] at l6; exact l6

/-- Witness for C4 at a concrete state and terminal size. -/
theorem c4_witness :
    (ensure_cursor_visible 24 80 (mkE ["abc".data] 0 2)).top ≤ 0 ∧
    (0 : Nat) ≤ (ensure_cursor_visible 24 80 (mkE ["abc".data] 0 2)).top + (24 - 2) :=
  ⟨(c4_ensure_cursor_visible_bounds 24 80 (mkE ["abc".data] 0 2)
      (by decide) (by decide)).2.2.1,
   (c4_ensure_cursor_visible_bounds 24 80 (mkE ["abc".data] 0 2)
      (by decide) (by decide)).2.2.2.1⟩

/-- Claim C5: `Buffer.save` fails with the no-filename message when no
(nonempty) path is set and with the read-only message when `readonly` is
set; in those cases and on any I/O failure the in-memory buffer is
returned unchanged and nothing reaches the disk; on success the written
stream is every line followed by `'\n'` and `modified` is cleared. -/
theorem c5_save_contract (b : Buffer) (io : Option (List Char)) :
    (b.filenameSet = false → b.save io = (b, (false, "No filename".data), none)) ∧
    (b.filenameSet = true → b.readonly = true →
      b.save io = (b, (false, "File is read-only".data), none)) ∧
    (∀ msg, io = some msg → (b.save io).1 = b ∧ (b.save io).2.2 = none) ∧
    (b.filenameSet = true → b.readonly = false → io = none →
      b.save io = ({ b with modified := false }, (true, "Saved".data),
        some (serializeLines b.lines))) := by
  unfold Buffer.save
  refine ⟨fun h1 => by simp [h1], fun h1 h2 => by simp [h1, h2], ?_, ?_⟩
  · intro msg hmsg
    split_ifs <;> simp_all
  · intro h1 h2 h3
    simp [h1, h2, h3]

/-- A concrete read-only buffer with a filename, for the C5 witness. -/
def roBuf : Buffer :=
  { filename := some "f".data, lines := ["x".data], modified := true,
    readonly := true }

/-- Witness for C5: a read-only buffer's save fails with the read-only
message and leaves the buffer untouched. -/
theorem c5_witness :
    Buffer.save none roBuf = (roBuf, (false, "File is read-only".data), none) :=
  (c5_save_contract roBuf none).2.1 (by decide) rfl

/-- Claim C7: backspace at `(row 0, col 0)` and forward-delete at the end
of the last line are no-ops — the whole state (lines, cursor, viewport,
modified flag) is returned unchanged, so in particular `modified` is not
set. -/
theorem c7_noop_edges (h w : Nat) (e : EState) :
    (e.cx = 0 → e.cy = 0 → backspace h w e = e) ∧
    (e.cy = e.buf.lines.length - 1 → e.cx = e.curLine.length →
      delete_char e = e) := by
  constructor
  · intro hcx hcy
    unfold backspace
    rw [hcx, hcy]
    simp
  · intro hcy hcx
    unfold delete_char
    rw [if_neg (by omega), if_neg (by omega)]

/-- Witness for C7 at concrete states. -/
theorem c7_witness :
    backspace 24 80 (mkE ["ab".data] 0 0) = mkE ["ab".data] 0 0 ∧
    delete_char (mkE ["ab".data] 0 2) = mkE ["ab".data] 0 2 :=
  ⟨(c7_noop_edges 24 80 (mkE ["ab".data] 0 0)).1 rfl rfl,
   (c7_noop_edges 24 80 (mkE ["ab".data] 0 2)).2 (by decide) (by decide)⟩

/-- Counterexample to claim C2: the claim says every input character with
code point at least 32 is inserted, but `'q'` (code point 113) is
dispatched as a quit command by the `q`/`Q` branch, not inserted. -/
theorem c2_counterexample :
    32 ≤ ('q').toNat ∧ dispatchStrKey 'q' ≠ StrKeyAction.insertChar 'q' := by
  decide

/-- Claim C2 as amended: every input character with code point at least 32
other than `'q'`, `'Q'` and DEL (`'\x7f'`, code point 127, handled as
backspace) is dispatched to `insert_char`, which splices it into the
current line at the cursor column and advances the column by 1; characters
below code point 32 are never dispatched as insertions. -/
theorem c2_amended_dispatch :
    (∀ ch : Char, 32 ≤ ch.toNat → ch ≠ 'q' → ch ≠ 'Q' → ch ≠ '\x7f' →
      dispatchStrKey ch = StrKeyAction.insertChar ch) ∧
    (∀ ch c : Char, ch.toNat < 32 →
      dispatchStrKey ch ≠ StrKeyAction.insertChar c) ∧
    (∀ (ch : Char) (e : EState),
      (insert_char ch e).cx = e.cx + 1 ∧
      (insert_char ch e).buf.lines
        = e.buf.lines.set e.cy (e.curLine.take e.cx ++ ch :: e.curLine.drop e.cx) ∧
      (insert_char ch e).buf.modified = true) := by
  refine ⟨?_, ?_, fun ch e => ⟨rfl, rfl, rfl⟩⟩
  · intro ch hge hq hQ hdel
    unfold dispatchStrKey
    split_ifs with h1 h2 h3 h4 h5 h6 h7 h8
    · exact absurd (h1 ▸ hge) (by decide)
    · exact absurd (h2 ▸ hge) (by decide)
    · rcases h3 with h3 | h3
      · exact absurd (h3 ▸ hge) (by decide)
      · exact absurd h3 hdel
    · exact absurd (h4 ▸ hge) (by decide)
    · exact absurd (h5 ▸ hge) (by decide)
    · rcases h6 with h6 | h6
      · exact absurd h6 hq
      · exact absurd h6 hQ
    · exact absurd (h7 ▸ hge) (by decide)
    · exact absurd (h8 ▸ hge) (by decide)
    · rfl
  · intro ch c hlt
    unfold dispatchStrKey
    split_ifs with h1 h2 h3 h4 h5 h6 h7 h8 h9 <;> intro hcon <;>
      first
        | exact StrKeyAction.noConfusion hcon
        | omega

/-- Witness for C2's amended theorem: `'a'` (code point 97) is dispatched
as an insertion, and `'\x1f'` (code point 31) never is. -/
theorem c2_amended_witness :
    dispatchStrKey 'a' = StrKeyAction.insertChar 'a' ∧
    dispatchStrKey '\x1f' ≠ StrKeyAction.insertChar '\x1f' ∧
    (insert_char 'a' (mkE ["xy".data] 0 1)).cx = 2 :=
  ⟨c2_amended_dispatch.1 'a' (by decide) (by decide) (by decide) (by decide),
   c2_amended_dispatch.2.1 '\x1f' '\x1f' (by decide),
   (c2_amended_dispatch.2.2 'a' (mkE ["xy".data] 0 1)).1⟩

/-- Claim C6: `replace_all` replaces every non-overlapping occurrence
leftmost-first in every line (never re-matching inside inserted
replacement text, as the `"a" → "aa"` example shows by terminating with
count 1), returns the total occurrence count, and sets `modified` exactly
when that count is nonzero; on `["aaa", "xax"]`, `replace_all("a", "bb")`
returns 4 and yields `["bbbbbb", "xbbx"]`. -/
theorem c6_replace_all :
    (replace_all "a".data "bb".data (mkE ["aaa".data, "xax".data] 0 0)).1 = 4 ∧
    (replace_all "a".data "bb".data (mkE ["aaa".data, "xax".data] 0 0)).2.buf.lines
      = ["bbbbbb".data, "xbbx".data] ∧
    (replace_all "a".data "bb".data (mkE ["aaa".data, "xax".data] 0 0)).2.buf.modified
      = true ∧
    (replace_all "a".data "aa".data (mkE ["a".data] 0 0)).1 = 1 ∧
    (replace_all "a".data "aa".data (mkE ["a".data] 0 0)).2.buf.lines
      = ["aa".data] ∧
    (∀ (f r : List Char) (e : EState),
      (replace_all f r e).2.buf.modified
        = (if (replace_all f r e).1 > 0 then true else e.buf.modified) ∧
      (replace_all f r e).1
        = (e.buf.lines.map fun line =>
            if pyContains f line then pyCount f line else 0).sum ∧
      (replace_all f r e).2.buf.lines
        = (e.buf.lines.map fun line =>
            if pyContains f line then pyReplace f r line else line) ∧
      (replace_all f r e).2.cy = e.cy ∧ (replace_all f r e).2.cx = e.cx) := by
  refine ⟨by decide, by decide, by decide, by decide, by decide,
    fun f r e => ⟨rfl, rfl, rfl, rfl, rfl⟩⟩

/-! ## Search lemmas -/

/-- A nonempty needle never matches inside the empty line. -/
theorem matchesAt_nil_left {term : List Char} (hne : term ≠ []) (i : Nat) :
    matchesAt [] term i = false := by
  cases term with
  | nil => exact absurd rfl hne
  | cons c t => simp [matchesAt]

/-- If Python `find` from offset 0 fails, it fails from every offset. -/
theorem pyFindFrom_none_shift {s term : List Char}
    (h0 : pyFindFrom s term 0 = none) (c : Nat) :
    pyFindFrom s term c = none := by
  unfold pyFindFrom at h0 ⊢
  rw [List.find?_eq_none] at h0 ⊢
  intro x hx
  have h2 := h0 x hx
  simp only [Bool.and_eq_true, decide_eq_true_eq, not_and] at h2 ⊢
  intro _
  exact h2 (Nat.zero_le x)

/-- Python `find` of a nonempty needle in the empty line fails. -/
theorem pyFindFrom_nil {term : List Char} (hne : term ≠ []) (c : Nat) :
    pyFindFrom [] term c = none := by
  unfold pyFindFrom
  rw [List.find?_eq_none]
  intro x hx
  simp [matchesAt_nil_left hne]

/-- A row loop over rows none of whose lines contain a match returns
nothing. -/
theorem findInRows_none {lines : List (List Char)} {term : List Char}
    {rows : List Nat} {sc : Nat → Nat}
    (h : ∀ y ∈ rows, pyFindFrom (lines.getD y []) term (sc y) = none) :
    findInRows lines term rows sc = none := by
  induction rows with
  | nil => rfl
  | cons y rest ih =>
    unfold findInRows
    rw [h y (by simp)]
    exact ih fun z hz => h z (by simp [hz])

/-- Claim C9: when the search term occurs nowhere in the document,
`find` reports not-found and returns the entire editor state — lines,
modified flag, cursor and viewport — unchanged. -/
theorem c9_find_not_found (h w : Nat) (term : List Char) (e : EState)
    (hne : term ≠ [])
    (habs : ∀ line ∈ e.buf.lines, pyFindFrom line term 0 = none) :
    find h w term e = (false, e) := by
  have key : ∀ y sc, pyFindFrom (e.buf.lines.getD y []) term sc = none := by
    intro y sc
    by_cases hy : y < e.buf.lines.length
    · refine pyFindFrom_none_shift (habs _ ?_) sc
      rw [List.getD_eq_getElem?_getD, List.getElem?_eq_getElem hy]
      exact List.getElem_mem hy
    · rw [List.getD_eq_getElem?_getD, List.getElem?_eq_none (by omega)]
      exact pyFindFrom_nil hne sc
  unfold find
  rw [findInRows_none fun y _ => key y _, findInRows_none fun y _ => key y _]

/-- Witness for C9: searching `["ab"]` for `"x"` finds nothing and leaves
the state alone. -/
theorem c9_witness :
    find 24 80 "x".data (mkE ["ab".data] 0 0) = (false, mkE ["ab".data] 0 0) :=
  c9_find_not_found 24 80 "x".data (mkE ["ab".data] 0 0) (by decide)
    (by decide)

/-! ## List surgery lemmas for the split/merge round trip -/

/-- Reading at the index right after a left context returns the first
appended element. -/
theorem getD_at_eq (l1 : List α) (a : α) (l2 : List α) (d : α) (n : Nat)
    (hn : n = l1.length) : (l1 ++ a :: l2).getD n d = a := by
  subst hn
  induction l1 with
  | nil => rfl
  | cons x t ih => simpa using ih

/-- Reading one index further returns the second appended element. -/
theorem getD_at_succ_eq (l1 : List α) (a b : α) (l2 : List α) (d : α)
    (n : Nat) (hn : n = l1.length) :
    (l1 ++ a :: b :: l2).getD (n + 1) d = b := by
  subst hn
  induction l1 with
  | nil => rfl
  | cons x t ih => simpa using ih

/-- Overwriting the element right after a left context. -/
theorem set_at_eq (l1 : List α) (a y : α) (l2 : List α) (n : Nat)
    (hn : n = l1.length) : (l1 ++ a :: l2).set n y = l1 ++ y :: l2 := by
  subst hn
  induction l1 with
  | nil => rfl
  | cons x t ih => simp [ih]

/-- `listInsertAt` one index past a left context and one element. -/
theorem insertAt_at_succ_eq (l1 : List α) (a y : α) (l2 : List α) (n : Nat)
    (hn : n = l1.length) :
    listInsertAt (n + 1) y (l1 ++ a :: l2) = l1 ++ a :: y :: l2 := by
  subst hn
  induction l1 with
  | nil => rfl
  | cons x t ih =>
    simp only [List.cons_append, List.length_cons, listInsertAt,
      List.take_succ_cons, List.drop_succ_cons] at ih ⊢
    exact congrArg (x :: ·) ih

/-- `listRemoveAt` of the element one index past a left context and one
element. -/
theorem removeAt_at_succ_eq (l1 : List α) (a b : α) (l2 : List α) (n : Nat)
    (hn : n = l1.length) :
    listRemoveAt (n + 1) (l1 ++ a :: b :: l2) = l1 ++ a :: l2 := by
  subst hn
  induction l1 with
  | nil => rfl
  | cons x t ih =>
    simp only [List.cons_append, List.length_cons, listRemoveAt,
      List.take_succ_cons, List.drop_succ_cons] at ih ⊢
    exact congrArg (x :: ·) ih

/-- Splitting a list at an in-range index into context, element, rest. -/
theorem lines_decomp (l : List α) (n : Nat) (hn : n < l.length) (d : α) :
    l = l.take n ++ l.getD n d :: l.drop (n + 1) := by
  conv_lhs => rw [← List.take_append_drop n l]
  rw [List.getD_eq_getElem?_getD, List.getElem?_eq_getElem hn]
  rw [List.drop_eq_getElem_cons hn]
  rfl

/-- `ensure_cursor_visible` only scrolls: buffer and cursor pass through. -/
theorem ensure_preserves (h w : Nat) (e : EState) :
    (ensure_cursor_visible h w e).buf = e.buf ∧
    (ensure_cursor_visible h w e).cy = e.cy ∧
    (ensure_cursor_visible h w e).cx = e.cx := by
  have h1 : ∀ e2 : EState, (clampTop h e2).buf = e2.buf ∧
      (clampTop h e2).cy = e2.cy ∧ (clampTop h e2).cx = e2.cx := by
    intro e2
    unfold clampTop
    split_ifs <;> exact ⟨rfl, rfl, rfl⟩
  have h2 : ∀ e2 : EState, (clampLeft w e2).buf = e2.buf ∧
      (clampLeft w e2).cy = e2.cy ∧ (clampLeft w e2).cx = e2.cx := by
    intro e2
    unfold clampLeft
    split_ifs <;> exact ⟨rfl, rfl, rfl⟩
  obtain ⟨a1, a2, a3⟩ := h2 (clampTop h e)
  obtain ⟨b1, b2, b3⟩ := h1 e
  exact ⟨a1.trans b1, a2.trans b2, a3.trans b3⟩

/-- `backspace` at column 0 on a row below the top merges the row into the
previous line; these are the fields of the result. -/
theorem backspace_merge_fields (h w : Nat) (e : EState) (h0 : e.cx = 0)
    (hpos : 0 < e.cy) :
    (backspace h w e).buf.lines
      = (listRemoveAt e.cy e.buf.lines).set (e.cy - 1)
          ((e.buf.lines.getD (e.cy - 1) []) ++ e.curLine) ∧
    (backspace h w e).cy = e.cy - 1 ∧
    (backspace h w e).cx = (e.buf.lines.getD (e.cy - 1) []).length := by
  have hb : backspace h w e = ensure_cursor_visible h w
      { e with
        buf := { e.buf with
                  lines := (listRemoveAt e.cy e.buf.lines).set (e.cy - 1)
                    ((e.buf.lines.getD (e.cy - 1) []) ++ e.curLine),
                  modified := true },
        cy := e.cy - 1,
        cx := (e.buf.lines.getD (e.cy - 1) []).length } := by
    unfold backspace
    rw [if_neg (by omega), if_pos hpos]
  rw [hb]
  obtain ⟨b, c, x⟩ := ensure_preserves h w _
  exact ⟨congrArg Buffer.lines b, c, x⟩

/-- The fields of the state `insert_newline` produces. -/
theorem insert_newline_fields (h w : Nat) (e : EState) :
    (insert_newline h w e).buf.lines
      = listInsertAt (e.cy + 1) (e.curLine.drop e.cx)
          (e.buf.lines.set e.cy (e.curLine.take e.cx)) ∧
    (insert_newline h w e).cy = e.cy + 1 ∧
    (insert_newline h w e).cx = 0 := by
  obtain ⟨b, c, x⟩ := ensure_preserves h w
    { e with
      buf := { e.buf with
                lines := listInsertAt (e.cy + 1) (e.curLine.drop e.cx)
                  (e.buf.lines.set e.cy (e.curLine.take e.cx)),
                modified := true },
      cy := e.cy + 1,
      cx := 0 }
  exact ⟨congrArg Buffer.lines b, c, x⟩

/-- Claim C8: for a cursor at an in-range column `k` of an in-range line,
inserting a newline (splitting the line at `k`) and then immediately
backspacing restores the original line sequence, with the cursor back on
the original row at column `k`. -/
theorem c8_newline_backspace_identity (h w : Nat) (e : EState)
    (hcy : e.cy < e.buf.lines.length) (hcx : e.cx ≤ e.curLine.length) :
    (backspace h w (insert_newline h w e)).buf.lines = e.buf.lines ∧
    (backspace h w (insert_newline h w e)).cy = e.cy ∧
    (backspace h w (insert_newline h w e)).cx = e.cx := by
  obtain ⟨A, B, hAB, hA⟩ :
      ∃ A B, e.buf.lines = A ++ e.curLine :: B ∧ A.length = e.cy := by
    refine ⟨e.buf.lines.take e.cy, e.buf.lines.drop (e.cy + 1),
      lines_decomp e.buf.lines e.cy hcy [], ?_⟩
    rw [List.length_take]
    omega
  obtain ⟨i1, i2, i3⟩ := insert_newline_fields h w e
  have hlines1 : (insert_newline h w e).buf.lines
      = A ++ e.curLine.take e.cx :: e.curLine.drop e.cx :: B := by
    rw [i1, hAB, set_at_eq A _ _ B e.cy hA.symm,
      insertAt_at_succ_eq A _ _ B e.cy hA.symm]
  have hprev : (insert_newline h w e).buf.lines.getD
      ((insert_newline h w e).cy - 1) [] = e.curLine.take e.cx := by
    rw [hlines1, i2, Nat.add_sub_cancel]
    exact getD_at_eq A _ _ [] e.cy hA.symm
  have hcur : (insert_newline h w e).curLine = e.curLine.drop e.cx := by
    rw [EState.curLine, hlines1, i2]
    exact getD_at_succ_eq A _ _ B [] e.cy hA.symm
  obtain ⟨m1, m2, m3⟩ := backspace_merge_fields h w (insert_newline h w e)
    i3 (by rw [i2]; omega)
  refine ⟨?_, ?_, ?_⟩
  · rw [m1, hprev, hcur, hlines1, i2, Nat.add_sub_cancel,
      removeAt_at_succ_eq A _ _ B e.cy hA.symm,
      set_at_eq A _ _ B e.cy hA.symm, List.take_append_drop]
    exact hAB.symm
  · rw [m2, i2, Nat.add_sub_cancel]
  · rw [m3, hprev, List.length_take]
    omega

/-- Witness for C8: splitting `"abcd"` at column 2 and backspacing
restores the line with the cursor back at `(0, 2)`. -/
theorem c8_witness :
    (backspace 24 80 (insert_newline 24 80 (mkE ["abcd".data] 0 2))).buf.lines
      = ["abcd".data] ∧
    (backspace 24 80 (insert_newline 24 80 (mkE ["abcd".data] 0 2))).cy = 0 ∧
    (backspace 24 80 (insert_newline 24 80 (mkE ["abcd".data] 0 2))).cx = 2 :=
  c8_newline_backspace_identity 24 80 (mkE ["abcd".data] 0 2)
    (by decide) (by decide)

/-! ## Save/load round trip -/

/-- One newline-terminated chunk at the front of the stream is yielded as
one line. -/
theorem splitKeepAux_chunk (l : List Char) (hl : '\n' ∉ l)
    (rest acc : List Char) :
    splitKeepAux acc (l ++ '\n' :: rest)
      = ((acc.reverse ++ l) ++ ['\n']) :: splitKeepAux [] rest := by
  induction l generalizing acc with
  | nil => simp [splitKeepAux]
  | cons c t ih =>
    have hc : c ≠ '\n' := by
      intro hcc
      subst hcc
      exact hl (List.mem_cons_self _ _)
    have step : splitKeepAux acc ((c :: t) ++ '\n' :: rest)
        = splitKeepAux (c :: acc) (t ++ '\n' :: rest) := by
      rw [List.cons_append, splitKeepAux, if_neg hc]
    rw [step, ih (fun ht => hl (List.mem_cons_of_mem c ht)) (c :: acc)]
    simp

/-- Iterating the serialized stream yields exactly the newline-terminated
lines. -/
theorem splitKeep_serialize (ls : List (List Char))
    (h : ∀ l ∈ ls, '\n' ∉ l) :
    splitKeep (serializeLines ls) = ls.map (fun l => l ++ ['\n']) := by
  induction ls with
  | nil => rfl
  | cons l rest ih =>
    show splitKeepAux [] (l ++ '\n' :: serializeLines rest) = _
    rw [splitKeepAux_chunk l (h l (List.mem_cons_self l rest)) _ []]
    show ((List.reverse [] ++ l) ++ ['\n']) :: splitKeep (serializeLines rest) = _
    rw [ih (fun x hx => h x (List.mem_cons_of_mem l hx))]
    simp

/-- Stripping the trailing newline recovers a newline-free line. -/
theorem rstripNL_chunk (l : List Char) (hl : '\n' ∉ l) :
    rstripNL (l ++ ['\n']) = l := by
  have hdrop : List.dropWhile (fun c => c = '\n') l.reverse = l.reverse := by
    cases hrev : l.reverse with
    | nil => rfl
    | cons c t =>
      have hc : c ≠ '\n' := by
        intro hcc
        exact hl (by rw [← List.mem_reverse, hrev, ← hcc]; exact List.mem_cons_self c t)
      rw [List.dropWhile_cons, if_neg (by simp [hc])]
  unfold rstripNL
  rw [List.reverse_append]
  show (List.dropWhile (fun c => c = '\n') ('\n' :: l.reverse)).reverse = l
  rw [List.dropWhile_cons, if_pos (by simp), hdrop, List.reverse_reverse]

/-- `Buffer.__init__`'s line computation inverts `Buffer.save`'s
serialization on any nonempty, newline-free line list. -/
theorem loadLines_serialize (ls : List (List Char)) (hne : ls ≠ [])
    (h : ∀ l ∈ ls, '\n' ∉ l) :
    loadLines (serializeLines ls) = ls := by
  unfold loadLines
  rw [splitKeep_serialize ls h, List.map_map]
  have hmap : ls.map (rstripNL ∘ fun l => l ++ ['\n']) = List.map id ls :=
    List.map_congr_left (fun x hx => rstripNL_chunk x (h x hx))
  rw [hmap, List.map_id]
  cases ls with
  | nil => exact absurd rfl hne
  | cons l rest => rfl

/-- Claim C10: for a buffer with a (nonempty) filename, the read-only flag
clear, a nonempty line list, and no newline characters inside any line, a
successful `save` writes every line followed by `'\n'`, and constructing a
new `Buffer` from that written content yields exactly the same lines. -/
theorem c10_save_load_round_trip (b : Buffer) (f : List Char)
    (hf : b.filename = some f) (hfne : f ≠ [])
    (hro : b.readonly = false) (hne : b.lines ≠ [])
    (hnl : ∀ l ∈ b.lines, '\n' ∉ l) :
    (b.save none).2.1.1 = true ∧
    (b.save none).2.2 = some (serializeLines b.lines) ∧
    (Buffer.load (some f) (some (serializeLines b.lines)) true).lines
      = b.lines := by
  have hset : b.filenameSet = true := by
    unfold Buffer.filenameSet
    rw [hf]
    simp [hfne]
  have hsave : b.save none
      = ({ b with modified := false }, (true, "Saved".data),
          some (serializeLines b.lines)) := by
    unfold Buffer.save
    rw [hset, hro]
    rfl
  refine ⟨by rw [hsave], by rw [hsave], ?_⟩
  show loadLines (serializeLines b.lines) = b.lines
  exact loadLines_serialize b.lines hne hnl

/-- A concrete writable buffer with a filename, for the C10 witness. -/
def rwBuf : Buffer :=
  { filename := some "f".data, lines := ["ab".data, [], "c".data],
    modified := true, readonly := false }

/-- Witness for C10 on a concrete three-line buffer. -/
theorem c10_witness :
    (rwBuf.save none).2.1.1 = true ∧
    (Buffer.load (some "f".data) (some (serializeLines rwBuf.lines)) true).lines
      = rwBuf.lines :=
  ⟨(c10_save_load_round_trip rwBuf "f".data rfl (by decide) rfl (by decide)
      (by decide)).1,
   (c10_save_load_round_trip rwBuf "f".data rfl (by decide) rfl (by decide)
      (by decide)).2.2⟩

/-! ## Search scan-order facts (claim C3) -/

/-- A successful row loop returns a row it was given together with the
Python-find result for that row's starting offset. -/
theorem findInRows_some {lines : List (List Char)} {term : List Char}
    {rows : List Nat} {sc : Nat → Nat} {y x : Nat}
    (hh : findInRows lines term rows sc = some (y, x)) :
    y ∈ rows ∧ pyFindFrom (lines.getD y []) term (sc y) = some x := by
  induction rows with
  | nil => exact absurd hh (by simp [findInRows])
  | cons z rest ih =>
    unfold findInRows at hh
    cases hz : pyFindFrom (lines.getD z []) term (sc z) with
    | some x0 =>
      rw [hz] at hh
      obtain ⟨rfl, rfl⟩ : z = y ∧ x0 = x := by
        simpa using hh
      exact ⟨List.mem_cons_self _ _, hz⟩
    | none =>
      rw [hz] at hh
      obtain ⟨hy, hf⟩ := ih hh
      exact ⟨List.mem_cons_of_mem _ hy, hf⟩

/-- What a successful Python `find` from an offset guarantees: the result
is at or after the offset, within the line, and a genuine match. -/
theorem pyFindFrom_some {s term : List Char} {start x : Nat}
    (hfind : pyFindFrom s term start = some x) :
    start ≤ x ∧ x ≤ s.length ∧ matchesAt s term x = true := by
  unfold pyFindFrom at hfind
  have h1 := List.find?_some hfind
  have h2 := List.mem_of_find?_eq_some hfind
  simp only [Bool.and_eq_true, decide_eq_true_eq] at h1
  rw [List.mem_range] at h2
  exact ⟨h1.1, by omega, h1.2⟩

/-- Counterexample to claim C3: on `["ab", "cb"]` with the cursor at
`(0, 1)`, the first `find("b")` does match row 0 col 1, but the claimed
cycling is false — the second call starts the scan at the cursor
inclusively, matches `(0, 1)` again, and never reaches row 1. -/
theorem c3_counterexample :
    (find 24 80 "b".data (mkE ["ab".data, "cb".data] 0 1)).1 = true ∧
    (find 24 80 "b".data (mkE ["ab".data, "cb".data] 0 1)).2.cy = 0 ∧
    (find 24 80 "b".data (mkE ["ab".data, "cb".data] 0 1)).2.cx = 1 ∧
    (find 24 80 "b".data
      (find 24 80 "b".data (mkE ["ab".data, "cb".data] 0 1)).2).2.cy = 0 ∧
    (find 24 80 "b".data
      (find 24 80 "b".data (mkE ["ab".data, "cb".data] 0 1)).2).2.cy ≠ 1 := by
  decide

/-- Claim C3 as amended: `find` scans rows `cy, …` forward using the
cursor column as offset only on the starting row and offset 0 on later
rows, then wraps over rows `0, …, cy-1`; a successful search never touches
the document, lands the cursor on a genuine occurrence of the term, and a
match reported on the starting row is at or after the starting column (the
scan is inclusive of the cursor position). Consequently on `["ab", "cb"]`
with cursor `(0, 1)` every `find("b")` call returns `(0, 1)` — the match
under the cursor — rather than cycling to row 1 and back. -/
theorem c3_amended_find_scan :
    ((find 24 80 "b".data (mkE ["ab".data, "cb".data] 0 1)).2.cy = 0 ∧
     (find 24 80 "b".data (mkE ["ab".data, "cb".data] 0 1)).2.cx = 1 ∧
     (find 24 80 "b".data
       (find 24 80 "b".data (mkE ["ab".data, "cb".data] 0 1)).2).2.cy = 0 ∧
     (find 24 80 "b".data
       (find 24 80 "b".data (mkE ["ab".data, "cb".data] 0 1)).2).2.cx = 1) ∧
    (∀ (h w : Nat) (term : List Char) (e e2 : EState) (b : Bool),
      find h w term e = (b, e2) →
      e2.buf = e.buf ∧
      (b = true →
        matchesAt (e2.buf.lines.getD e2.cy []) term e2.cx = true ∧
        (e2.cy = e.cy → e.cx ≤ e2.cx)) ∧
      (b = false → e2 = e)) := by
  refine ⟨⟨by decide, by decide, by decide, by decide⟩, ?_⟩
  intro h w term e e2 b hfind
  unfold find at hfind
  cases hfwd : findInRows e.buf.lines term
      (List.range' e.cy (e.buf.lines.length - e.cy))
      (fun y => if y = e.cy then e.cx else 0) with
  | some p =>
    obtain ⟨y, x⟩ := p
    rw [hfwd] at hfind
    obtain ⟨rfl, rfl⟩ : b = true ∧
        ensure_cursor_visible h w { e with cy := y, cx := x } = e2 := by
      simpa using hfind
    obtain ⟨eb, ec, ex⟩ := ensure_preserves h w { e with cy := y, cx := x }
    obtain ⟨hy, hf⟩ := findInRows_some hfwd
    rw [List.mem_range'_1] at hy
    obtain ⟨hs, hm⟩ := pyFindFrom_some hf
    refine ⟨eb, fun _ => ⟨?_, ?_⟩, fun hcon => by simp at hcon⟩
    · rw [eb, ec, ex]
      show matchesAt (e.buf.lines.getD y []) term x = true
      exact hm.2
    · rw [ec, ex]
      show y = e.cy → e.cx ≤ x
      intro hye
      rw [if_pos hye] at hs
      exact hs
  | none =>
    rw [hfwd] at hfind
    cases hwrap : findInRows e.buf.lines term (List.range e.cy)
        (fun _ => 0) with
    | some p =>
      obtain ⟨y, x⟩ := p
      rw [hwrap] at hfind
      obtain ⟨rfl, rfl⟩ : b = true ∧
          ensure_cursor_visible h w { e with cy := y, cx := x } = e2 := by
        simpa using hfind
      obtain ⟨eb, ec, ex⟩ := ensure_preserves h w { e with cy := y, cx := x }
      obtain ⟨hy, hf⟩ := findInRows_some hwrap
      rw [List.mem_range] at hy
      obtain ⟨hs, hm⟩ := pyFindFrom_some hf
      refine ⟨eb, fun _ => ⟨?_, ?_⟩, fun hcon => by simp at hcon⟩
      · rw [eb, ec, ex]
        show matchesAt (e.buf.lines.getD y []) term x = true
        exact hm.2
      · rw [ec, ex]
        show y = e.cy → e.cx ≤ x
        intro hye
        omega
    | none =>
      rw [hwrap] at hfind
      obtain ⟨rfl, rfl⟩ : b = false ∧ e = e2 := by
        simpa using hfind
      exact ⟨rfl, fun hcon => by simp at hcon, fun _ => rfl⟩

/-- Witness for C3's amended theorem: the general part applied to a
concrete successful search. -/
theorem c3_amended_witness :
    matchesAt ((find 24 80 "b".data (mkE ["ab".data, "cb".data] 0 0)).2.buf.lines.getD
        (find 24 80 "b".data (mkE ["ab".data, "cb".data] 0 0)).2.cy [])
      "b".data
      (find 24 80 "b".data (mkE ["ab".data, "cb".data] 0 0)).2.cx = true :=
  ((c3_amended_find_scan.2 24 80 "b".data (mkE ["ab".data, "cb".data] 0 0)
      (find 24 80 "b".data (mkE ["ab".data, "cb".data] 0 0)).2 true
      (by decide)).2.1 rfl).1

end ProText
